import Mathlib

/-!
Verification of the audio sample-rate conversion app (`src/app.py`).

The Python source is shallowly embedded: the filesystem is a record of the
two primitives the code consults (`os.path.exists`, `os.listdir`), the external
`sox` resampling tool is an oracle parameter, and Python exceptions are
modelled as `Option`/abort flags.  String slicing and `rsplit` are translated
character-exactly.
-/

namespace AudioApp

/-- Python slice `s[-n:]`: the last `n` characters of `s` (all of `s` when
`s` is shorter than `n`). -/
def pySliceLast (n : Nat) (s : String) : String :=
  String.mk (s.toList.drop (s.toList.length - n))

/-- Python slice `s[:-1]`: drop the last character. -/
def pyDropLast (s : String) : String :=
  String.mk s.toList.dropLast

/-- Python `s[-1]`: the last character; `none` models the `IndexError`
raised on the empty string. -/
def pyLastChar (s : String) : Option Char :=
  s.toList.getLast?

/-- Split a character list at the LAST occurrence of `c`:
`some (before, after)` when `c` occurs, `none` otherwise.  This is the
semantics of Python `s.rsplit(c, 1)` producing a two-element list; `none`
is the one-element case where index `[1]` raises `IndexError`. -/
def rsplitLastChar (c : Char) : List Char → Option (List Char × List Char)
  | [] => none
  | a :: rest =>
    match rsplitLastChar c rest with
    | some (pre, suf) => some (a :: pre, suf)
    | none => if a == c then some ([], rest) else none

/-- Python `s.rsplit(sep=c, maxsplit=1)` on strings, keeping only the
two-element outcome (see `rsplitLastChar`). -/
def rsplitLast (c : Char) (s : String) : Option (String × String) :=
  (rsplitLastChar c s.toList).map (fun p => (String.mk p.1, String.mk p.2))

/-- The test `name[-4:] == '.wav'` used throughout `app.py`. -/
def isWavName (s : String) : Bool :=
  pySliceLast 4 s == ".wav"

/-- The filesystem as observed by `app.py`: `os.path.exists` and
`os.listdir` (the latter returns `none` when listing raises, e.g. the path
is not a directory or permission is denied). -/
structure FileSystem where
  pathExists : String → Bool
  listdir : String → Option (List String)

/-- Lexicographic (code-point) comparison of character lists, the order
Python uses on strings. -/
def lexLe : List Char → List Char → Bool
  | [], _ => true
  | _ :: _, [] => false
  | a :: as, b :: bs => if a = b then lexLe as bs else decide (a < b)

/-- Python `a <= b` on strings. -/
def pyStrLe (a b : String) : Bool :=
  lexLe a.toList b.toList

/-- Python `sorted` on strings: lexicographic ascending, stable. -/
def pySorted (l : List String) : List String :=
  List.insertionSort (fun a b => pyStrLe a b = true) l

/-- `make_audio_list` from `app.py` (lines 37-51): append a trailing `/` to
the directory, list it, keep names ending in `.wav`, sorted; a listing
failure is swallowed into the empty list. -/
def make_audio_list (fs : FileSystem) (input_filepath : String) :
    String × List String :=
  let directory_path := input_filepath ++ "/"
  match fs.listdir input_filepath with
  | some names => (directory_path, pySorted (names.filter isWavName))
  | none => (directory_path, [])

/-- `validate_audio_path` from `app.py` (lines 16-35).  `none` models an
uncaught exception: `input_filepath[-1]` on the empty string, or the
`rsplit('/', 1)[1]` index when the path holds no `/`. -/
def validate_audio_path (fs : FileSystem) (input_filepath : String) :
    Option (String × List String) :=
  if fs.pathExists input_filepath then
    match pyLastChar input_filepath with
    | none => none
    | some c =>
      let p := if c == '/' then pyDropLast input_filepath else input_filepath
      if isWavName p then
        match rsplitLast '/' p with
        | some (d, f) => some (d ++ "/", [f])
        | none => none
      else
        some (make_audio_list fs p)
  else
    some ("", [])

/-- The fixed rate-token table from `convert_samplerate` (lines 106-109). -/
def sample_frequency : List (String × Nat) :=
  [("11k", 11025), ("16k", 16000)]

/-- `convert_samplerate` from `app.py` (lines 97-114).  The external sox
tool is the oracle `tool input output rate`, returning its success bit.
`none` models the `KeyError` raised by `sample_frequency[sample_rate]`
before any tool invocation; otherwise the result records the exact call
made `(input, output, rate)` together with the tool's outcome. -/
def convert_samplerate (tool : String → String → Nat → Bool)
    (sample_rate input_filepath output_filepath file_name : String) :
    Option ((String × String × Nat) × Bool) :=
  match List.lookup sample_rate sample_frequency with
  | none => none
  | some rate =>
    let out := output_filepath ++ file_name
    some ((input_filepath, out, rate), tool input_filepath out rate)

/-- A progress snapshot as displayed by the loop at lines 211-213. -/
structure Snapshot where
  elapsed_seconds : Nat
  completed_count : Nat
  total_count : Nat
deriving DecidableEq, Repr

/-- Observable events of the conversion loop: an invocation of the external
tool, or a progress report. -/
inductive Event where
  | convert (input_filepath output_filepath : String) (rate : Nat)
  | progress (snap : Snapshot)
deriving DecidableEq, Repr

/-- Outcome of the conversion loop: its event trace in order, the output
files produced, and whether it aborted with an exception. -/
structure LoopResult where
  events : List Event
  outputs : List String
  aborted : Bool
deriving DecidableEq, Repr

/-- The conversion loop of `main` (`app.py` lines 208-213):
`for count, audio_name in enumerate(input_filename_list): convert_samplerate(...); <progress writes>`.
`elapsedAt k` is the value of `time.time() - start` observed at the `k`-th
progress report; `name_map` is `input_filename_dict`.  A `KeyError` or tool
failure raises, aborting the loop: no snapshot is reported for the failed
item and later items are not reached. -/
def conversion_loop (tool : String → String → Nat → Bool)
    (elapsedAt : Nat → Nat) (samplerate directory_path output_filepath : String)
    (name_map : String → String) (total : Nat) :
    List String → Nat → LoopResult
  | [], _ => ⟨[], [], false⟩
  | audio_name :: rest, count =>
    match convert_samplerate tool samplerate
        (directory_path ++ name_map audio_name) output_filepath audio_name with
    | none => ⟨[], [], true⟩
    | some (call, ok) =>
      if ok then
        let r := conversion_loop tool elapsedAt samplerate directory_path
          output_filepath name_map total rest (count + 1)
        ⟨Event.convert call.1 call.2.1 call.2.2 ::
            Event.progress ⟨elapsedAt (count + 1), count + 1, total⟩ :: r.events,
          call.2.1 :: r.outputs, r.aborted⟩
      else
        ⟨[Event.convert call.1 call.2.1 call.2.2], [], true⟩

/-- The event trace of a fully successful loop: each item's tool call,
immediately followed by its progress snapshot, then the next item. -/
def successEvents (elapsedAt : Nat → Nat)
    (directory_path output_filepath : String) (name_map : String → String)
    (rate total : Nat) : List String → Nat → List Event
  | [], _ => []
  | n :: rest, count =>
    Event.convert (directory_path ++ name_map n) (output_filepath ++ n) rate ::
      Event.progress ⟨elapsedAt (count + 1), count + 1, total⟩ ::
        successEvents elapsedAt directory_path output_filepath name_map rate total
          rest (count + 1)

/-- The progress snapshots of an event trace, in order. -/
def snapshotsOf : List Event → List Snapshot
  | [] => []
  | Event.progress s :: rest => s :: snapshotsOf rest
  | Event.convert _ _ _ :: rest => snapshotsOf rest

/-- How many tool invocations (conversion attempts) a trace holds. -/
def convertCount : List Event → Nat
  | [] => 0
  | Event.convert _ _ _ :: rest => convertCount rest + 1
  | Event.progress _ :: rest => convertCount rest

/-- Python `os.path.join(directory, f)` for a relative `f`. -/
def pyJoin (directory f : String) : String :=
  if pyLastChar directory == some '/' then directory ++ f
  else directory ++ "/" ++ f

/-- The upload staging loop of `main` (`app.py` lines 143-150) together with
the paths it creates on disk.  `tempName i` is the basename allocated by the
`i`-th `NamedTemporaryFile(delete=False)` (allocation creates the file);
`writeOk i` tells whether the `i`-th `write_bytes` succeeds.  Returns
`(real_filename_list, input_filename_list, created_basenames, failed)`:
the two lists as built by the Python loop — the appends happen only AFTER a
successful write — while `created_basenames` also holds the temp file whose
write failed, since it was already allocated on disk. -/
def stage_loop (tempName : Nat → String) (writeOk : Nat → Bool) :
    List String → Nat → List String × List String × List String × Bool
  | [], _ => ([], [], [], false)
  | display :: rest, i =>
    if writeOk i then
      let r := stage_loop tempName writeOk rest (i + 1)
      (tempName i :: r.1, display :: r.2.1, tempName i :: r.2.2.1, r.2.2.2)
    else
      ([], [], [tempName i], true)

/-- Staging followed by the `except` handler of `main` (lines 151-158): on
failure the handler removes `os.path.join(directory_path, f)` for each `f`
in `real_filename_list` that exists.  Returns the run-created paths still
on disk afterwards. -/
def stage_run (tempDir : String) (tempName : Nat → String)
    (writeOk : Nat → Bool) (uploads : List String) : List String :=
  let r := stage_loop tempName writeOk uploads 0
  let disk := r.2.2.1.map (tempDir ++ ·)
  if r.2.2.2 then
    disk.filter (fun p => !(r.1.map (fun f => pyJoin tempDir f)).contains p)
  else
    disk

/-- The archive filename from line 226 of `app.py`. -/
def zipName : String := "convert_samplerate.zip"

/-- `input_filename_dict = dict(zip(input_filename_list, real_filename_list))`
(line 150) as a function: last-write-wins lookup. -/
def uploadNameMap (displays reals : List String) (n : String) : String :=
  (List.lookup n (displays.zip reals).reverse).getD ""

/-- One full upload-flow run of the Convert button (`app.py` lines
192-248), with staging already successful: `displays` are the uploaded
display names, `tempName i` the staged basenames, `tempDir` the scratch
directory (`directory_path`, also used as `output_filepath`).  Paths
created by the run: the staged temps, the converted outputs, and — when the
loop completes — the zip archive written at `directory_path + 'convert_samplerate.zip'`
(lines 226-230).  The `finally` block (lines 243-248) then removes
`os.path.join(directory_path, f)` for every `f` in
`real_filename_list + input_filename_list` that exists.  Returns the
run-created paths still on disk afterwards. -/
def upload_run (tool : String → String → Nat → Bool) (elapsedAt : Nat → Nat)
    (samplerate tempDir : String) (displays : List String)
    (tempName : Nat → String) : List String :=
  let real_l := (List.range displays.length).map tempName
  let lr := conversion_loop tool elapsedAt samplerate tempDir tempDir
    (uploadNameMap displays real_l) displays.length displays 0
  let created := real_l.map (tempDir ++ ·) ++ lr.outputs ++
    (if lr.aborted then [] else [tempDir ++ zipName])
  let registered := (real_l ++ displays).map (fun f => pyJoin tempDir f)
  created.filter (fun p => !registered.contains p)

/-! ### Helper lemmas -/

theorem toList_append (s t : String) : (s ++ t).toList = s.toList ++ t.toList :=
  rfl

theorem mk_toList (s : String) : String.mk s.toList = s :=
  rfl

theorem string_append_left_cancel {a b c : String} (h : a ++ b = a ++ c) :
    b = c := by
  have h1 := congrArg String.toList h
  rw [toList_append, toList_append] at h1
  exact congrArg String.mk (List.append_cancel_left h1)

theorem rsplitLastChar_eq_none {c : Char} {l : List Char} (h : c ∉ l) :
    rsplitLastChar c l = none := by
  induction l with
  | nil => rfl
  | cons a rest ih =>
    have ha : a ≠ c := fun hac => h (hac ▸ List.mem_cons_self a rest)
    have hr : c ∉ rest := fun hc => h (List.mem_cons_of_mem a hc)
    simp [rsplitLastChar, ih hr, ha]

theorem rsplitLastChar_append {c : Char} (l₁ : List Char) {l₂ : List Char}
    (h : c ∉ l₂) : rsplitLastChar c (l₁ ++ c :: l₂) = some (l₁, l₂) := by
  induction l₁ with
  | nil =>
    simp only [List.nil_append, rsplitLastChar, rsplitLastChar_eq_none h,
      beq_self_eq_true, if_true]
  | cons a rest ih =>
    simp only [List.cons_append, rsplitLastChar, List.append_eq, ih]

theorem pySliceLast_append {n : Nat} (a : String) {b : String}
    (h : n ≤ b.toList.length) : pySliceLast n (a ++ b) = pySliceLast n b := by
  unfold pySliceLast
  rw [toList_append, List.length_append]
  have : a.toList.length + b.toList.length - n =
      a.toList.length + (b.toList.length - n) := by omega
  rw [this, List.drop_append]

theorem isWavName_length {s : String} (h : isWavName s = true) :
    4 ≤ s.toList.length := by
  by_contra hlt
  push_neg at hlt
  unfold isWavName pySliceLast at h
  have hd : s.toList.length - 4 = 0 := by omega
  rw [hd, List.drop_zero] at h
  have heq : s.toList = (".wav" : String).toList := by
    have := eq_of_beq h
    exact congrArg String.toList this
  have : s.toList.length = 4 := by rw [heq]; rfl
  omega

theorem pyLastChar_append_ne_slash {a f : String} (hne : f.toList ≠ [])
    (hns : '/' ∉ f.toList) : ∃ v, pyLastChar (a ++ f) = some v ∧ v ≠ '/' := by
  obtain ⟨v, hv⟩ := Option.ne_none_iff_exists'.mp
    (mt List.getLast?_eq_none_iff.mp hne)
  refine ⟨v, ?_, ?_⟩
  · unfold pyLastChar
    rw [toList_append, List.getLast?_append, hv]
    rfl
  · intro hvs
    exact hns (hvs ▸ List.mem_of_mem_getLast? hv)

/-! ### Claim theorems: path resolution -/

/-- C7: for every input path that does not exist on the filesystem,
`validate_audio_path` returns the empty-string directory and the empty
filename list. -/
theorem C7_nonexistent_path (fs : FileSystem) (input_filepath : String)
    (h : fs.pathExists input_filepath = false) :
    validate_audio_path fs input_filepath = some ("", []) := by
  unfold validate_audio_path
  rw [h]
  rfl

/-- Witness for C7 at `resolve("/does/not/exist")` on a filesystem where no
path exists. -/
theorem C7_nonexistent_path_witness :
    validate_audio_path ⟨fun _ => false, fun _ => none⟩ "/does/not/exist" =
      some ("", []) :=
  C7_nonexistent_path ⟨fun _ => false, fun _ => none⟩ "/does/not/exist" rfl

theorem lexLe_trans : ∀ (a b c : List Char),
    lexLe a b = true → lexLe b c = true → lexLe a c = true
  | [], _, _, _, _ => rfl
  | _ :: _, [], _, hab, _ => by simp [lexLe] at hab
  | _ :: _, _ :: _, [], _, hbc => by simp [lexLe] at hbc
  | x :: xs, y :: ys, z :: zs, hab, hbc => by
    simp only [lexLe] at hab hbc ⊢
    by_cases hxy : x = y <;> by_cases hyz : y = z
    · subst hxy
      subst hyz
      rw [if_pos rfl] at hab hbc ⊢
      exact lexLe_trans xs ys zs hab hbc
    · subst hxy
      rw [if_neg hyz] at hbc
      rw [if_neg hyz]
      exact hbc
    · subst hyz
      rw [if_neg hxy] at hab
      rw [if_neg hxy]
      exact hab
    · rw [if_neg hxy] at hab
      rw [if_neg hyz] at hbc
      rw [decide_eq_true_eq] at hab hbc
      have hxz : x < z := lt_trans hab hbc
      rw [if_neg (ne_of_lt hxz), decide_eq_true_eq]
      exact hxz

theorem lexLe_total : ∀ (a b : List Char),
    lexLe a b = true ∨ lexLe b a = true
  | [], _ => Or.inl rfl
  | _ :: _, [] => Or.inr rfl
  | x :: xs, y :: ys => by
    by_cases hxy : x = y
    · subst hxy
      rcases lexLe_total xs ys with h | h
      · exact Or.inl (by simp only [lexLe, if_pos rfl]; exact h)
      · exact Or.inr (by simp only [lexLe, if_pos rfl]; exact h)
    · rcases lt_or_gt_of_ne hxy with h | h
      · exact Or.inl (by
          simp only [lexLe, if_neg hxy, decide_eq_true_eq]
          exact h)
      · exact Or.inr (by
          simp only [lexLe, if_neg (Ne.symm hxy), decide_eq_true_eq]
          exact h)

instance : IsTrans String (fun a b => pyStrLe a b = true) :=
  ⟨fun a b c => lexLe_trans a.toList b.toList c.toList⟩

instance : IsTotal String (fun a b => pyStrLe a b = true) :=
  ⟨fun a b => lexLe_total a.toList b.toList⟩

theorem pyLastChar_ne_slash {f : String} (hne : f.toList ≠ [])
    (hns : '/' ∉ f.toList) : ∃ v, pyLastChar f = some v ∧ v ≠ '/' := by
  obtain ⟨v, hv⟩ := Option.ne_none_iff_exists'.mp
    (mt List.getLast?_eq_none_iff.mp hne)
  exact ⟨v, hv, fun hvs => hns (hvs ▸ List.mem_of_mem_getLast? hv)⟩

theorem make_audio_list_fst (fs : FileSystem) (p : String) :
    (make_audio_list fs p).1 = p ++ "/" := by
  unfold make_audio_list
  cases fs.listdir p <;> rfl

/-- C8: an existing path of the form `directory ++ "/" ++ filename`, where
the filename ends in `.wav` and holds no separator, resolves to the parent
directory (with trailing separator) and the one-element filename list. -/
theorem C8_single_file (fs : FileSystem) (d f : String)
    (hex : fs.pathExists (d ++ "/" ++ f) = true)
    (hwav : isWavName f = true)
    (hns : '/' ∉ f.toList) :
    validate_audio_path fs (d ++ "/" ++ f) = some (d ++ "/", [f]) := by
  have hlen := isWavName_length hwav
  have hfne : f.toList ≠ [] := by
    intro h0
    rw [h0] at hlen
    exact absurd hlen (by decide)
  obtain ⟨v, hv, hvne⟩ := pyLastChar_append_ne_slash (a := d ++ "/") hfne hns
  have hbeq : (v == '/') = false := beq_eq_false_iff_ne.mpr hvne
  have hwavp : isWavName (d ++ "/" ++ f) = true := by
    unfold isWavName
    rw [pySliceLast_append (d ++ "/") hlen]
    exact hwav
  have hsplit : rsplitLast '/' (d ++ "/" ++ f) = some (d, f) := by
    unfold rsplitLast
    have htl : (d ++ "/" ++ f).toList = d.toList ++ '/' :: f.toList := by
      rw [toList_append, toList_append]
      simp [List.append_assoc]
    rw [htl, rsplitLastChar_append d.toList hns]
    rfl
  unfold validate_audio_path
  rw [hex, if_pos rfl, hv]
  simp only [hbeq, Bool.false_eq_true, if_false, hwavp, if_true, hsplit]

/-- Witness for C8: `resolve("/a/b/x.wav")` returns `("/a/b/", ["x.wav"])`
on a filesystem where exactly that file exists. -/
theorem C8_single_file_witness :
    validate_audio_path ⟨fun q => q == "/a/b/x.wav", fun _ => none⟩
      "/a/b/x.wav" = some ("/a/b/", ["x.wav"]) :=
  C8_single_file ⟨fun q => q == "/a/b/x.wav", fun _ => none⟩ "/a/b" "x.wav"
    (by decide) (by decide) (by decide)

/-- C9: an existing path taken through the directory branch (nonempty, no
trailing separator after normalization, not ending in `.wav`) resolves to
the directory with a trailing separator, paired with the lexicographically
sorted `.wav` entries of its listing; a failed listing yields the empty
list instead of an exception; and a trailing separator on the input is
normalized away first. -/
theorem C9_directory_listing (fs : FileSystem) (p : String)
    (hne : p.toList ≠ []) (hts : pyLastChar p ≠ some '/')
    (hnw : isWavName p = false) (hex : fs.pathExists p = true) :
    validate_audio_path fs p = some (p ++ "/", (make_audio_list fs p).2) ∧
    (∀ l, fs.listdir p = some l →
      (make_audio_list fs p).2.Sorted (fun a b => pyStrLe a b = true) ∧
      (make_audio_list fs p).2.Perm (l.filter isWavName)) ∧
    (fs.listdir p = none → (make_audio_list fs p).2 = []) ∧
    (fs.pathExists (p ++ "/") = true →
      validate_audio_path fs (p ++ "/") =
        some (p ++ "/", (make_audio_list fs p).2)) := by
  obtain ⟨c, hc⟩ := Option.ne_none_iff_exists'.mp
    (mt List.getLast?_eq_none_iff.mp hne)
  have hcne : c ≠ '/' := by
    intro h
    exact hts (h ▸ hc)
  have hbeq : (c == '/') = false := beq_eq_false_iff_ne.mpr hcne
  have heta : some (make_audio_list fs p) =
      some (p ++ "/", (make_audio_list fs p).2) := by
    rw [← make_audio_list_fst fs p]
  refine ⟨?_, ?_, ?_, ?_⟩
  · unfold validate_audio_path
    rw [hex, if_pos rfl]
    rw [show pyLastChar p = some c from hc]
    simp only [hbeq, Bool.false_eq_true, if_false, hnw]
    exact heta
  · intro l hl
    unfold make_audio_list
    rw [hl]
    constructor
    · exact List.sorted_insertionSort _ (l.filter isWavName)
    · exact List.perm_insertionSort _ (l.filter isWavName)
  · intro hl
    unfold make_audio_list
    rw [hl]
  · intro hex2
    have htl : (p ++ "/").toList = p.toList ++ ['/'] := rfl
    have hlast : pyLastChar (p ++ "/") = some '/' := by
      unfold pyLastChar
      rw [htl, List.getLast?_append]
      rfl
    have hdrop : pyDropLast (p ++ "/") = p := by
      unfold pyDropLast
      rw [htl, List.dropLast_concat]
      exact mk_toList p
    unfold validate_audio_path
    rw [hex2, if_pos rfl, hlast]
    simp only [beq_self_eq_true, if_true, hdrop, hnw, Bool.false_eq_true,
      if_false]
    exact heta

/-- Witness for C9: a directory `/music` whose listing holds `b.wav`,
`a.wav` and `c.txt` resolves to `("/music/", ["a.wav", "b.wav"])`. -/
theorem C9_directory_listing_witness :
    validate_audio_path
      ⟨fun q => q == "/music",
        fun q => if q == "/music" then some ["b.wav", "a.wav", "c.txt"]
          else none⟩ "/music" = some ("/music/", ["a.wav", "b.wav"]) :=
  (C9_directory_listing
    ⟨fun q => q == "/music",
      fun q => if q == "/music" then some ["b.wav", "a.wav", "c.txt"]
        else none⟩ "/music"
    (by decide) (by decide) (by decide) (by decide)).1.trans (by decide)

/-- C10: an existing path ending in `.wav` but holding no `/` separator
makes `validate_audio_path` raise (the `rsplit('/', 1)[1]` index fails),
modelled as `none`, instead of returning a `(directory, names)` pair. -/
theorem C10_bare_filename (fs : FileSystem) (p : String)
    (hex : fs.pathExists p = true) (hwav : isWavName p = true)
    (hns : '/' ∉ p.toList) :
    validate_audio_path fs p = none := by
  have hlen := isWavName_length hwav
  have hne : p.toList ≠ [] := by
    intro h0
    rw [h0] at hlen
    exact absurd hlen (by decide)
  obtain ⟨v, hv, hvne⟩ := pyLastChar_ne_slash hne hns
  have hbeq : (v == '/') = false := beq_eq_false_iff_ne.mpr hvne
  have hsplit : rsplitLast '/' p = none := by
    unfold rsplitLast
    rw [rsplitLastChar_eq_none hns]
    rfl
  unfold validate_audio_path
  rw [hex, if_pos rfl, hv]
  simp only [hbeq, Bool.false_eq_true, if_false, hwav, if_true, hsplit]

/-- Witness for C10: `validate_audio_path` on the bare existing filename
`x.wav` raises (returns `none`). -/
theorem C10_bare_filename_witness :
    validate_audio_path ⟨fun q => q == "x.wav", fun _ => none⟩ "x.wav" =
      none :=
  C10_bare_filename ⟨fun q => q == "x.wav", fun _ => none⟩ "x.wav"
    (by decide) (by decide) (by decide)

/-! ### Claim theorems: conversion engine -/

/-- C6: the conversion operation maps token `"11k"` to sample rate 11025
and `"16k"` to 16000 in the tool invocation; any other token raises a
`KeyError` (modelled `none`) before the tool is ever called. -/
theorem C6_rate_mapping (tool : String → String → Nat → Bool)
    (i o f r : String) (h11 : r ≠ "11k") (h16 : r ≠ "16k") :
    convert_samplerate tool "11k" i o f =
      some ((i, o ++ f, 11025), tool i (o ++ f) 11025) ∧
    convert_samplerate tool "16k" i o f =
      some ((i, o ++ f, 16000), tool i (o ++ f) 16000) ∧
    convert_samplerate tool r i o f = none := by
  refine ⟨rfl, rfl, ?_⟩
  unfold convert_samplerate
  have h1 : (r == "11k") = false := beq_eq_false_iff_ne.mpr h11
  have h2 : (r == "16k") = false := beq_eq_false_iff_ne.mpr h16
  simp [sample_frequency, List.lookup, h1, h2]

/-- Witness for C6 at token `"8k"` and concrete paths. -/
theorem C6_rate_mapping_witness :
    convert_samplerate (fun _ _ _ => true) "11k" "/tmp/t0" "/out/" "a.wav" =
      some (("/tmp/t0", "/out/a.wav", 11025), true) ∧
    convert_samplerate (fun _ _ _ => true) "16k" "/tmp/t0" "/out/" "a.wav" =
      some (("/tmp/t0", "/out/a.wav", 16000), true) ∧
    convert_samplerate (fun _ _ _ => true) "8k" "/tmp/t0" "/out/" "a.wav" =
      none :=
  C6_rate_mapping (fun _ _ _ => true) "/tmp/t0" "/out/" "a.wav" "8k"
    (by decide) (by decide)

/-- C5: every tool invocation made by the conversion loop reads from
`directory_path ++ name_map[n]` (the staged/real name) and writes to
`output_filepath ++ n` (the display name) for some batch item `n`; in the
upload flow this puts the original upload filename on the output file. -/
theorem C5_io_paths (tool : String → String → Nat → Bool)
    (elapsedAt : Nat → Nat)
    (samplerate directory_path output_filepath : String)
    (name_map : String → String) (total : Nat) (names : List String)
    (count : Nat) (i o : String) (r : Nat)
    (h : Event.convert i o r ∈
      (conversion_loop tool elapsedAt samplerate directory_path
        output_filepath name_map total names count).events) :
    ∃ n ∈ names,
      i = directory_path ++ name_map n ∧ o = output_filepath ++ n := by
  induction names generalizing count with
  | nil => simp [conversion_loop] at h
  | cons a rest ih =>
    cases hl : List.lookup samplerate sample_frequency with
    | none =>
      simp only [conversion_loop, convert_samplerate, hl] at h
      simp at h
    | some rate =>
      simp only [conversion_loop, convert_samplerate, hl] at h
      by_cases hok :
          tool (directory_path ++ name_map a) (output_filepath ++ a) rate =
            true
      · rw [hok, if_pos rfl] at h
        rcases List.mem_cons.mp h with hhd | h2
        · obtain ⟨hi, ho, _⟩ := Event.convert.inj hhd.symm
          exact ⟨a, List.mem_cons_self a rest, hi.symm, ho.symm⟩
        · rcases List.mem_cons.mp h2 with hp | htl
          · exact absurd hp.symm (by simp)
          · obtain ⟨n, hn, hio⟩ := ih (count + 1) htl
            exact ⟨n, List.mem_cons_of_mem a hn, hio⟩
      · rw [Bool.not_eq_true] at hok
        rw [hok, if_neg (by simp)] at h
        rcases List.mem_cons.mp h with hhd | h2
        · obtain ⟨hi, ho, _⟩ := Event.convert.inj hhd.symm
          exact ⟨a, List.mem_cons_self a rest, hi.symm, ho.symm⟩
        · simp at h2

/-- Witness for C5: in a one-item batch the single convert event's input
is the staged name and its output is the display name. -/
theorem C5_io_paths_witness :
    ∃ n ∈ ["a.wav"],
      "/d/t0" = "/d/" ++ (fun _ => "t0") n ∧ "/o/a.wav" = "/o/" ++ n :=
  C5_io_paths (fun _ _ _ => true) (fun k => k) "16k" "/d/" "/o/"
    (fun _ => "t0") 1 ["a.wav"] 0 "/d/t0" "/o/a.wav" 16000 (by decide)

theorem convertCount_append : ∀ (a b : List Event),
    convertCount (a ++ b) = convertCount a + convertCount b
  | [], _ => by simp [convertCount]
  | Event.convert _ _ _ :: rest, b => by
    simp only [List.cons_append, List.append_eq, convertCount,
      convertCount_append rest b]
    omega
  | Event.progress _ :: rest, b => by
    simp only [List.cons_append, List.append_eq, convertCount,
      convertCount_append rest b]

theorem convertCount_successEvents (elapsedAt : Nat → Nat)
    (dirp outp : String) (name_map : String → String) (rate total : Nat) :
    ∀ (names : List String) (c : Nat),
      convertCount
        (successEvents elapsedAt dirp outp name_map rate total names c) =
        names.length
  | [], _ => rfl
  | n :: rest, c => by
    simp only [successEvents, convertCount, List.length_cons,
      convertCount_successEvents elapsedAt dirp outp name_map rate total
        rest (c + 1)]

theorem conversion_loop_append (tool : String → String → Nat → Bool)
    (elapsedAt : Nat → Nat) (samplerate dirp outp : String)
    (name_map : String → String) (total : Nat) {rate : Nat}
    (hrate : List.lookup samplerate sample_frequency = some rate)
    (pre rest : List String) (c : Nat)
    (hpre : ∀ n ∈ pre, tool (dirp ++ name_map n) (outp ++ n) rate = true) :
    conversion_loop tool elapsedAt samplerate dirp outp name_map total
        (pre ++ rest) c =
      ⟨successEvents elapsedAt dirp outp name_map rate total pre c ++
          (conversion_loop tool elapsedAt samplerate dirp outp name_map total
            rest (c + pre.length)).events,
        pre.map (fun n => outp ++ n) ++
          (conversion_loop tool elapsedAt samplerate dirp outp name_map total
            rest (c + pre.length)).outputs,
        (conversion_loop tool elapsedAt samplerate dirp outp name_map total
          rest (c + pre.length)).aborted⟩ := by
  induction pre generalizing c with
  | nil => simp [successEvents]
  | cons a pr ih =>
    have ha := hpre a (List.mem_cons_self a pr)
    simp only [List.cons_append, List.append_eq, conversion_loop,
      convert_samplerate, hrate, ha, if_true]
    rw [ih (c + 1) (fun n hn => hpre n (List.mem_cons_of_mem a hn))]
    simp only [successEvents, List.map_cons, List.length_cons,
      List.cons_append]
    have harith : c + 1 + pr.length = c + (pr.length + 1) := by omega
    rw [harith]

theorem snapshotsOf_successEvents (elapsedAt : Nat → Nat)
    (dirp outp : String) (name_map : String → String) (rate total : Nat) :
    ∀ (names : List String) (c : Nat),
      snapshotsOf
        (successEvents elapsedAt dirp outp name_map rate total names c) =
        (List.range names.length).map
          (fun k => ⟨elapsedAt (c + k + 1), c + k + 1, total⟩)
  | [], _ => rfl
  | n :: rest, c => by
    simp only [successEvents, snapshotsOf, List.length_cons,
      List.range_succ_eq_map, List.map_cons, List.map_map,
      snapshotsOf_successEvents elapsedAt dirp outp name_map rate total
        rest (c + 1)]
    congr 1
    refine List.map_congr_left ?_
    intro a _
    simp only [Function.comp_apply, Nat.succ_eq_add_one]
    have h1 : c + 1 + a + 1 = c + (a + 1) + 1 := by omega
    rw [h1]

/-- C3: if the tool succeeds on every item of `pre` and fails on item `x`
(the `k`-th item, `k = pre.length + 1`), the batch loop produces exactly
the `k - 1` outputs of `pre`, aborts with an error, and makes exactly `k`
tool invocations — the items after `x` are never attempted. -/
theorem C3_abort_on_failure (tool : String → String → Nat → Bool)
    (elapsedAt : Nat → Nat) (samplerate dirp outp : String)
    (name_map : String → String) (total : Nat) (pre post : List String)
    (x : String) {rate : Nat}
    (hrate : List.lookup samplerate sample_frequency = some rate)
    (hpre : ∀ n ∈ pre, tool (dirp ++ name_map n) (outp ++ n) rate = true)
    (hx : tool (dirp ++ name_map x) (outp ++ x) rate = false) :
    (conversion_loop tool elapsedAt samplerate dirp outp name_map total
        (pre ++ x :: post) 0).aborted = true ∧
    (conversion_loop tool elapsedAt samplerate dirp outp name_map total
        (pre ++ x :: post) 0).outputs = pre.map (fun n => outp ++ n) ∧
    (conversion_loop tool elapsedAt samplerate dirp outp name_map total
        (pre ++ x :: post) 0).events =
      successEvents elapsedAt dirp outp name_map rate total pre 0 ++
        [Event.convert (dirp ++ name_map x) (outp ++ x) rate] ∧
    convertCount
      (conversion_loop tool elapsedAt samplerate dirp outp name_map total
        (pre ++ x :: post) 0).events = pre.length + 1 := by
  have hstep : conversion_loop tool elapsedAt samplerate dirp outp name_map
      total (x :: post) (0 + pre.length) =
      ⟨[Event.convert (dirp ++ name_map x) (outp ++ x) rate], [], true⟩ := by
    simp only [conversion_loop, convert_samplerate, hrate, hx,
      Bool.false_eq_true, if_false]
  rw [conversion_loop_append tool elapsedAt samplerate dirp outp name_map
    total hrate pre (x :: post) 0 hpre, hstep]
  refine ⟨rfl, by simp, rfl, ?_⟩
  rw [convertCount_append,
    convertCount_successEvents elapsedAt dirp outp name_map rate total pre 0]
  rfl

/-- Witness for C3: a three-item batch whose second item fails produces one
output, aborts, and makes exactly two tool invocations. -/
theorem C3_abort_on_failure_witness :
    (conversion_loop (fun _ o _ => o != "/o/b") (fun k => k) "16k" "/d/"
        "/o/" (fun n => "t" ++ n) 3 (["a"] ++ "b" :: ["c"]) 0).aborted =
      true ∧
    (conversion_loop (fun _ o _ => o != "/o/b") (fun k => k) "16k" "/d/"
        "/o/" (fun n => "t" ++ n) 3 (["a"] ++ "b" :: ["c"]) 0).outputs =
      ["a"].map (fun n => "/o/" ++ n) ∧
    (conversion_loop (fun _ o _ => o != "/o/b") (fun k => k) "16k" "/d/"
        "/o/" (fun n => "t" ++ n) 3 (["a"] ++ "b" :: ["c"]) 0).events =
      successEvents (fun k => k) "/d/" "/o/" (fun n => "t" ++ n) 16000 3
        ["a"] 0 ++ [Event.convert ("/d/" ++ "t" ++ "b") ("/o/" ++ "b")
          16000] ∧
    convertCount
      (conversion_loop (fun _ o _ => o != "/o/b") (fun k => k) "16k" "/d/"
        "/o/" (fun n => "t" ++ n) 3 (["a"] ++ "b" :: ["c"]) 0).events =
      ["a"].length + 1 :=
  C3_abort_on_failure (fun _ o _ => o != "/o/b") (fun k => k) "16k" "/d/"
    "/o/" (fun n => "t" ++ n) 3 ["a"] ["c"] "b" (by decide) (by decide)
    (by decide)

/-- C4: a successful batch of `n` items reports exactly `n` progress
snapshots, in item order — the trace alternates each item's tool call with
its snapshot — with `completed_count` running `1, 2, …, n = total_count`
and, for a monotone clock, non-decreasing `elapsed_seconds`. -/
theorem C4_progress_monotonic (tool : String → String → Nat → Bool)
    (elapsedAt : Nat → Nat) (samplerate dirp outp : String)
    (name_map : String → String) (names : List String) {rate : Nat}
    (hrate : List.lookup samplerate sample_frequency = some rate)
    (hall : ∀ n ∈ names, tool (dirp ++ name_map n) (outp ++ n) rate = true) :
    (conversion_loop tool elapsedAt samplerate dirp outp name_map
      names.length names 0).aborted = false ∧
    (conversion_loop tool elapsedAt samplerate dirp outp name_map
        names.length names 0).events =
      successEvents elapsedAt dirp outp name_map rate names.length names 0 ∧
    snapshotsOf (conversion_loop tool elapsedAt samplerate dirp outp name_map
        names.length names 0).events =
      (List.range names.length).map
        (fun k => ⟨elapsedAt (k + 1), k + 1, names.length⟩) ∧
    ((∀ a b, a ≤ b → elapsedAt a ≤ elapsedAt b) →
      (snapshotsOf (conversion_loop tool elapsedAt samplerate dirp outp
          name_map names.length names 0).events).Pairwise
        (fun s t => s.elapsed_seconds ≤ t.elapsed_seconds)) := by
  have hrun := conversion_loop_append tool elapsedAt samplerate dirp outp
    name_map names.length hrate names [] 0 hall
  rw [List.append_nil] at hrun
  have hsnap := snapshotsOf_successEvents elapsedAt dirp outp name_map rate
    names.length names 0
  have hsnap0 : snapshotsOf (successEvents elapsedAt dirp outp name_map rate
      names.length names 0) =
      (List.range names.length).map
        (fun k => ⟨elapsedAt (k + 1), k + 1, names.length⟩) := by
    rw [hsnap]
    refine List.map_congr_left ?_
    intro a _
    simp
  refine ⟨?_, ?_, ?_, ?_⟩
  · rw [hrun]
    simp [conversion_loop]
  · rw [hrun]
    simp [conversion_loop]
  · rw [hrun]
    simp only [conversion_loop, List.append_nil]
    exact hsnap0
  · intro hmono
    rw [hrun]
    simp only [conversion_loop, List.append_nil]
    rw [hsnap0]
    rw [List.pairwise_map]
    refine (List.pairwise_lt_range names.length).imp ?_
    intro a b hab
    exact hmono (a + 1) (b + 1) (by omega)

/-- Witness for C4: a successful two-item batch with the identity clock
reports snapshots `(1, 1, 2)` then `(2, 2, 2)`, with non-decreasing
elapsed time. -/
theorem C4_progress_monotonic_witness :
    (conversion_loop (fun _ _ _ => true) (fun k => k) "11k" "/d/" "/o/"
      (fun n => "t" ++ n) 2 ["a", "b"] 0).aborted = false ∧
    snapshotsOf (conversion_loop (fun _ _ _ => true) (fun k => k) "11k"
        "/d/" "/o/" (fun n => "t" ++ n) 2 ["a", "b"] 0).events =
      [⟨1, 1, 2⟩, ⟨2, 2, 2⟩] ∧
    (snapshotsOf (conversion_loop (fun _ _ _ => true) (fun k => k) "11k"
        "/d/" "/o/" (fun n => "t" ++ n) 2 ["a", "b"] 0).events).Pairwise
      (fun s t => s.elapsed_seconds ≤ t.elapsed_seconds) := by
  have h := @C4_progress_monotonic (fun _ _ _ => true) (fun k => k) "11k"
    "/d/" "/o/" (fun n => "t" ++ n) ["a", "b"] 11025 (by decide)
    (fun n _ => rfl)
  exact ⟨h.1, h.2.2.1.trans (by decide), h.2.2.2 (fun a b hab => hab)⟩

/-! ### Claim theorems: upload staging and cleanup -/

theorem pyJoin_slash {d : String} (h : pyLastChar d = some '/')
    (f : String) : pyJoin d f = d ++ f := by
  unfold pyJoin
  rw [h]
  simp

theorem stage_loop_fail (tempName : Nat → String) (writeOk : Nat → Bool) :
    ∀ (uploads : List String) (i k : Nat), k < uploads.length →
      (∀ j < k, writeOk (i + j) = true) → writeOk (i + k) = false →
      stage_loop tempName writeOk uploads i =
        ((List.range k).map (fun j => tempName (i + j)),
          uploads.take k,
          (List.range k).map (fun j => tempName (i + j)) ++
            [tempName (i + k)],
          true)
  | [], _, k, hk, _, _ => absurd hk (by simp)
  | d :: rest, i, 0, _, _, hfail => by
    simp only [Nat.add_zero] at hfail
    simp [stage_loop, hfail]
  | d :: rest, i, k + 1, hk, hok, hfail => by
    have hi : writeOk i = true := by
      have := hok 0 (by omega)
      simpa using this
    have hrec := stage_loop_fail tempName writeOk rest (i + 1) k
      (by simpa using hk)
      (fun j hj => by
        have := hok (j + 1) (by omega)
        simpa [Nat.add_assoc, Nat.add_comm 1 j] using this)
      (by
        have h1 : i + 1 + k = i + (k + 1) := by omega
        rw [h1]
        exact hfail)
    have hmap : List.map ((fun j => tempName (i + j)) ∘ Nat.succ)
        (List.range k) =
        List.map (fun j => tempName (i + 1 + j)) (List.range k) := by
      refine List.map_congr_left ?_
      intro j _
      simp only [Function.comp_apply, Nat.succ_eq_add_one]
      congr 1
      omega
    have hlast : i + (k + 1) = i + 1 + k := by omega
    simp only [stage_loop, hi, if_true, hrec, List.range_succ_eq_map,
      List.map_cons, List.map_map, List.take_succ_cons, Nat.add_zero,
      List.cons_append, hmap, hlast]

/-- C2 counterexample: one upload whose blob write fails.  The temporary
file was already allocated on disk, but because `app.py` appends to
`real_filename_list` only after `write_bytes` succeeds, the error handler
removes nothing and the allocated temp file `/tmp/tmp000` remains. -/
theorem C2_counterexample :
    stage_run "/tmp/" (fun _ => "tmp000") (fun _ => false) ["a.wav"] =
      ["/tmp/tmp000"] := by
  decide

/-- C2 as amended: a staged path is registered only AFTER its blob write
completes, so when the write of item `k` (0-indexed) fails, the handler
cleans the temp files of items `0..k-1` but the temp path already
allocated for item `k` is left on disk. -/
theorem C2_registration_after_write (tempDir : String)
    (tempName : Nat → String) (writeOk : Nat → Bool)
    (uploads : List String) (k : Nat)
    (hdir : pyLastChar tempDir = some '/') (hk : k < uploads.length)
    (hok : ∀ j < k, writeOk j = true) (hfail : writeOk k = false)
    (hinj : ∀ j < k, tempName j ≠ tempName k) :
    stage_run tempDir tempName writeOk uploads =
      [tempDir ++ tempName k] := by
  have hloop := stage_loop_fail tempName writeOk uploads 0 k hk
    (fun j hj => by simpa using hok j hj) (by simpa using hfail)
  unfold stage_run
  rw [hloop]
  simp only [Nat.zero_add, if_true, List.map_append, List.filter_append,
    List.map_cons, List.map_nil, List.map_map]
  have hA : ((List.range k).map
      ((fun f => tempDir ++ f) ∘ fun j => tempName j)).filter
      (fun p =>
        !(((List.range k).map
          ((fun f => pyJoin tempDir f) ∘ fun j => tempName j)).contains
            p)) = [] := by
    refine List.filter_eq_nil_iff.mpr ?_
    intro p hp
    simp only [List.mem_map, List.mem_range, Function.comp_apply] at hp
    obtain ⟨j, hj, rfl⟩ := hp
    simp only [Bool.not_eq_true', Bool.not_eq_false]
    refine List.elem_iff.mpr ?_
    refine List.mem_map.mpr ⟨j, List.mem_range.mpr hj, ?_⟩
    simp only [Function.comp_apply]
    exact pyJoin_slash hdir (tempName j)
  have hB : ([tempDir ++ tempName k]).filter
      (fun p =>
        !(((List.range k).map
          ((fun f => pyJoin tempDir f) ∘ fun j => tempName j)).contains
            p)) = [tempDir ++ tempName k] := by
    rw [List.filter_cons]
    have hnc : (((List.range k).map
        ((fun f => pyJoin tempDir f) ∘ fun j => tempName j)).contains
          (tempDir ++ tempName k)) = false := by
      rw [← Bool.not_eq_true]
      intro hc
      obtain ⟨j, hj, hje⟩ := List.mem_map.mp (List.elem_iff.mp hc)
      simp only [Function.comp_apply, pyJoin_slash hdir] at hje
      exact hinj j (List.mem_range.mp hj) (string_append_left_cancel hje)
    rw [hnc]
    rfl
  rw [hA, hB]
  rfl

/-- Witness for the amended C2: two uploads, the second write fails; the
first temp file is cleaned and the second remains. -/
theorem C2_registration_after_write_witness :
    stage_run "/tmp/" (fun i => if i == 0 then "tmp000" else "tmp001")
      (fun i => i == 0) ["a.wav", "b.wav"] = ["/tmp/" ++ "tmp001"] :=
  C2_registration_after_write "/tmp/"
    (fun i => if i == 0 then "tmp000" else "tmp001") (fun i => i == 0)
    ["a.wav", "b.wav"] 1 (by decide) (by decide) (by decide) (by decide)
    (by decide)

theorem conversion_loop_outputs (tool : String → String → Nat → Bool)
    (elapsedAt : Nat → Nat) (samplerate dirp outp : String)
    (name_map : String → String) (total : Nat) :
    ∀ (names : List String) (c : Nat) (p : String),
      p ∈ (conversion_loop tool elapsedAt samplerate dirp outp name_map
        total names c).outputs → ∃ n ∈ names, p = outp ++ n := by
  intro names
  induction names with
  | nil =>
    intro c p hp
    simp [conversion_loop] at hp
  | cons a rest ih =>
    intro c p hp
    cases hl : List.lookup samplerate sample_frequency with
    | none =>
      simp only [conversion_loop, convert_samplerate, hl] at hp
      simp at hp
    | some rate =>
      simp only [conversion_loop, convert_samplerate, hl] at hp
      by_cases hok : tool (dirp ++ name_map a) (outp ++ a) rate = true
      · rw [hok, if_pos rfl] at hp
        rcases List.mem_cons.mp hp with hhd | htl
        · exact ⟨a, List.mem_cons_self a rest, hhd⟩
        · obtain ⟨n, hn, hpe⟩ := ih (c + 1) p htl
          exact ⟨n, List.mem_cons_of_mem a hn, hpe⟩
      · rw [Bool.not_eq_true] at hok
        rw [hok, if_neg (by simp)] at hp
        simp at hp

/-- C1 counterexample: a successful one-upload run.  The staged temp file
and the converted output are removed by the `finally` block, but the
produced archive `/tmp/convert_samplerate.zip` is never registered for
cleanup and remains on the server after the run. -/
theorem C1_counterexample :
    upload_run (fun _ _ _ => true) (fun _ => 0) "16k" "/tmp/" ["a.wav"]
      (fun _ => "tmp000") = ["/tmp/convert_samplerate.zip"] := by
  decide

theorem upload_run_eq (tool : String → String → Nat → Bool)
    (elapsedAt : Nat → Nat) (samplerate tempDir : String)
    (displays : List String) (tempName : Nat → String) :
    upload_run tool elapsedAt samplerate tempDir displays tempName =
      ((((List.range displays.length).map tempName).map
          (fun f => tempDir ++ f) ++
        (conversion_loop tool elapsedAt samplerate tempDir tempDir
          (uploadNameMap displays
            ((List.range displays.length).map tempName))
          displays.length displays 0).outputs ++
        (if (conversion_loop tool elapsedAt samplerate tempDir tempDir
            (uploadNameMap displays
              ((List.range displays.length).map tempName))
            displays.length displays 0).aborted then []
          else [tempDir ++ zipName]))).filter
        (fun p => !((((List.range displays.length).map tempName ++
          displays).map (fun g => pyJoin tempDir g)).contains p)) :=
  rfl

/-- C1 as amended: after an upload-flow run, every staged input and every
converted output is removed — any path left behind can only be the zip
archive — and when the conversion loop completes without error the archive
`directory_path ++ "convert_samplerate.zip"` does remain on disk, because
it is never added to the cleanup lists. -/
theorem C1_transient_cleanup (tool : String → String → Nat → Bool)
    (elapsedAt : Nat → Nat) (samplerate tempDir : String)
    (displays : List String) (tempName : Nat → String)
    (hdir : pyLastChar tempDir = some '/') (hz1 : zipName ∉ displays)
    (hz2 : ∀ i, tempName i ≠ zipName) :
    (∀ p ∈ upload_run tool elapsedAt samplerate tempDir displays tempName,
        p = tempDir ++ zipName) ∧
    ((conversion_loop tool elapsedAt samplerate tempDir tempDir
        (uploadNameMap displays ((List.range displays.length).map tempName))
        displays.length displays 0).aborted = false →
      upload_run tool elapsedAt samplerate tempDir displays tempName =
        [tempDir ++ zipName]) := by
  have hreg : ∀ f, f ∈ (List.range displays.length).map tempName ∨
      f ∈ displays →
      (((List.range displays.length).map tempName ++ displays).map
        (fun g => pyJoin tempDir g)).contains (tempDir ++ f) = true := by
    intro f hf
    refine List.elem_iff.mpr ?_
    refine List.mem_map.mpr ⟨f, List.mem_append.mpr hf, ?_⟩
    exact pyJoin_slash hdir f
  have hzip : (((List.range displays.length).map tempName ++ displays).map
      (fun g => pyJoin tempDir g)).contains (tempDir ++ zipName) =
      false := by
    rw [← Bool.not_eq_true]
    intro hc
    obtain ⟨f, hf, hfe⟩ := List.mem_map.mp (List.elem_iff.mp hc)
    rw [pyJoin_slash hdir] at hfe
    have hfz : f = zipName := string_append_left_cancel hfe
    rcases List.mem_append.mp hf with hfl | hfr
    · obtain ⟨i, _, hie⟩ := List.mem_map.mp hfl
      exact hz2 i (hie.trans hfz)
    · exact hz1 (hfz ▸ hfr)
  constructor
  · intro p hp
    rw [upload_run_eq] at hp
    obtain ⟨hmem, hkeep⟩ := List.mem_filter.mp hp
    rw [Bool.not_eq_true'] at hkeep
    rcases List.mem_append.mp hmem with hmem2 | hzipm
    · exfalso
      rcases List.mem_append.mp hmem2 with hstag | hout
      · obtain ⟨f, hf, hfe⟩ := List.mem_map.mp hstag
        rw [← hfe] at hkeep
        rw [hreg f (Or.inl hf)] at hkeep
        simp at hkeep
      · obtain ⟨n, hn, hpe⟩ := conversion_loop_outputs tool elapsedAt
          samplerate tempDir tempDir
          (uploadNameMap displays ((List.range displays.length).map tempName))
          displays.length displays 0 p hout
        rw [hpe] at hkeep
        rw [hreg n (Or.inr hn)] at hkeep
        simp at hkeep
    · rcases hab : (conversion_loop tool elapsedAt samplerate tempDir tempDir
          (uploadNameMap displays
            ((List.range displays.length).map tempName))
          displays.length displays 0).aborted with _ | _
      · rw [hab] at hzipm
        simp at hzipm
        exact hzipm
      · rw [hab] at hzipm
        simp at hzipm
  · intro habort
    rw [upload_run_eq, habort]
    simp only [Bool.false_eq_true, if_false, List.filter_append]
    have hA : (((List.range displays.length).map tempName).map
        (fun f => tempDir ++ f)).filter
        (fun p => !((((List.range displays.length).map tempName ++
          displays).map (fun g => pyJoin tempDir g)).contains p)) = [] := by
      refine List.filter_eq_nil_iff.mpr ?_
      intro p hp
      obtain ⟨f, hf, hfe⟩ := List.mem_map.mp hp
      rw [← hfe, hreg f (Or.inl hf)]
      simp
    have hB : ((conversion_loop tool elapsedAt samplerate tempDir tempDir
        (uploadNameMap displays ((List.range displays.length).map tempName))
        displays.length displays 0).outputs).filter
        (fun p => !((((List.range displays.length).map tempName ++
          displays).map (fun g => pyJoin tempDir g)).contains p)) = [] := by
      refine List.filter_eq_nil_iff.mpr ?_
      intro p hp
      obtain ⟨n, hn, hpe⟩ := conversion_loop_outputs tool elapsedAt
        samplerate tempDir tempDir
        (uploadNameMap displays ((List.range displays.length).map tempName))
        displays.length displays 0 p hp
      rw [hpe, hreg n (Or.inr hn)]
      simp
    have hC : ([tempDir ++ zipName]).filter
        (fun p => !((((List.range displays.length).map tempName ++
          displays).map (fun g => pyJoin tempDir g)).contains p)) =
        [tempDir ++ zipName] := by
      rw [List.filter_cons, hzip]
      rfl
    rw [hA, hB, hC]
    rfl

/-- Witness for the amended C1: concrete successful run whose only
surviving path is the archive. -/
theorem C1_transient_cleanup_witness :
    (∀ p ∈ upload_run (fun _ _ _ => true) (fun _ => 0) "16k" "/tmp/"
        ["a.wav"] (fun _ => "tmp000"), p = "/tmp/" ++ zipName) ∧
    upload_run (fun _ _ _ => true) (fun _ => 0) "16k" "/tmp/" ["a.wav"]
      (fun _ => "tmp000") = ["/tmp/" ++ zipName] := by
  have h := C1_transient_cleanup (fun _ _ _ => true) (fun _ => 0) "16k"
    "/tmp/" ["a.wav"] (fun _ => "tmp000") (by decide) (by decide)
    (fun i => (by decide : "tmp000" ≠ zipName))
  exact ⟨h.1, h.2 (by decide)⟩

end AudioApp
